import Mathlib

/-!
Verification development for the glogv streaming log reformatter
(src/glogv.go).  The Go program is shallowly embedded: Go strings are
Lean `String`s, Go byte slices are modelled as the visible bytes plus
the spare capacity bytes beyond the length, dynamic `any` values decoded
from JSON are a `JsonValue` inductive, and Go panics (failed type
assertions, out-of-range slicing) are modelled as `Option` failures or a
`panicked` outcome.
-/

namespace Glogv

/-- ANSI color escape codes (src/glogv.go lines 23-33). -/
def colorReset : String := "\x1b[0m"

def colorGray : String := "\x1b[90m"

def colorGreen : String := "\x1b[32m"

def colorRed : String := "\x1b[31m"

def colorYellow : String := "\x1b[33m"

def colorBlue : String := "\x1b[34m"

def colorPurple : String := "\x1b[35m"

def colorCyan : String := "\x1b[36m"

def colorWhite : String := "\x1b[37m"

/-- Constant `maxKeys = 100` — maximum size of the json key slice (src/glogv.go line 18). -/
def maxKeys : Nat := 100

/-- A dynamic JSON value, the model of a Go `any` produced by
`json.Unmarshal` into `map[string]any`.  Numbers are kept as their
literal text: this program never reads a numeric value (it only ever
type-asserts values to `string`), so their representation is inert. -/
inductive JsonValue where
  | str (s : String)
  | num (lit : String)
  | bool (b : Bool)
  | null
  | arr (elems : List JsonValue)
  | obj (fields : List (String × JsonValue))

/-- The decoded `map[string]any`, carried in iteration order.  Go map
iteration order is unspecified, so theorems quantify over permutations
where the order matters. -/
abbrev GoMap := List (String × JsonValue)

/-- Go map read `m[k]` (returns the zero value `nil` as `none` when absent). -/
def getVal (k : String) : GoMap → Option JsonValue
  | [] => none
  | (k', v) :: rest => if k' = k then some v else getVal k rest

/-- Go `delete(m, k)`. -/
def delKey (k : String) (m : GoMap) : GoMap :=
  m.filter (fun p => p.1 != k)

/-- Go type assertion `v.(string)`: yields the string, or panics (`none`)
when the dynamic type is not `string` (src/glogv.go lines 166, 169, 172,
175, 259, 279). -/
def goAssertString : JsonValue → Option String
  | .str s => some s
  | _ => none

/-- The global key-sort scratch buffer `keys` (src/glogv.go line 41),
modelled as a Go slice: a length plus the underlying storage.  Bytes of
storage beyond `len` are the stale contents left by earlier records. -/
structure KeyBuf where
  len : Nat
  arr : List String
deriving DecidableEq

/-- Go reslicing `keys[:0]`: the length drops to zero, the storage (and
whatever stale keys it holds) stays. -/
def KeyBuf.resetLen (b : KeyBuf) : KeyBuf := ⟨0, b.arr⟩

/-- Go `append(keys, k)`: overwrite in place below capacity, else grow. -/
def KeyBuf.push (b : KeyBuf) (k : String) : KeyBuf :=
  if b.len < b.arr.length then ⟨b.len + 1, b.arr.set b.len k⟩
  else ⟨b.len + 1, b.arr ++ [k]⟩

/-- The visible elements of the slice: `keys[0:len]`. -/
def KeyBuf.view (b : KeyBuf) : List String := b.arr.take b.len

/-- Bytewise lexicographic `≤` on character lists, the order Go's
`sort.Strings` sorts by (UTF-8 byte order coincides with code-point
order). -/
def lexLe : List Char → List Char → Bool
  | [], _ => true
  | _ :: _, [] => false
  | a :: as, b :: bs => if a < b then true else if b < a then false else lexLe as bs

/-- Go string comparison `a <= b`. -/
def strLe (a b : String) : Prop := lexLe a.data b.data = true

instance : DecidableRel strLe := fun a b => by
  unfold strLe; infer_instance

/-- Model of `sort.Strings(keys)` — ascending sort.  Any correct sort models Go's
(keys are distinct Go map keys, so stability is irrelevant). -/
def sortStrings (l : List String) : List String := List.insertionSort strLe l

/-- Function `formatLevel` (src/glogv.go lines 209-224).  Note: no `fatal` or
`trace` case exists in this file; they fall to the default `" ???"`. -/
def formatLevel (s : String) : String :=
  if s = "info" then " " ++ colorGreen ++ "INF"
  else if s = "warn" then " " ++ colorYellow ++ "WRN"
  else if s = "debug" then " " ++ colorCyan ++ "DBG"
  else if s = "error" then " " ++ colorRed ++ "ERR"
  else if s = "panic" then " " ++ colorPurple ++ "PNC"
  else " ???"

/-- Function `formatMessage` (src/glogv.go lines 227-237). -/
def formatMessage (s : String) (l : String) : String :=
  if s = "" then s
  else if l = "info" then " " ++ colorReset ++ s
  else " " ++ s

/-- Function `formatError` (src/glogv.go lines 240-246). -/
def formatError (s : String) : String :=
  if s = "" then s
  else " (error: " ++ s ++ ")"

/-- One iteration of the render loop body
`s += " " + colorGray + k + "=" + colorReset + m[k].(string)`
(src/glogv.go line 279).  A missing key would make `m[k]` the nil
interface, whose type assertion panics; a non-string value also panics. -/
def renderStep (m : GoMap) (acc : String) (k : String) : Option String :=
  (getVal k m).bind fun v =>
    (goAssertString v).map fun s => acc ++ " " ++ colorGray ++ k ++ "=" ++ colorReset ++ s

/-- The render loop `for _, k := range keys` (src/glogv.go lines 278-280). -/
def renderKeysLoop (m : GoMap) (acc : String) : List String → Option String
  | [] => some acc
  | k :: ks => (renderStep m acc k).bind fun acc' => renderKeysLoop m acc' ks

/-- The key-collecting loop (src/glogv.go lines 266-273): append keys in
iteration order, incrementing `i` after each append and breaking once
`i > maxKeys` — so up to `maxKeys + 1` keys are collected. -/
def collectKeys (m : GoMap) : List String :=
  (m.map Prod.fst).take (maxKeys + 1)

/-- The collect-then-sort phase of `formatMap` (src/glogv.go lines
265-275): reslice the global buffer to length 0, append up to
`maxKeys + 1` keys in map iteration order, then `sort.Strings` sorts the
visible elements in place (storage beyond the length keeps its stale
contents). -/
def sortPhase (buf : KeyBuf) (m : GoMap) : KeyBuf :=
  let b2 := (collectKeys m).foldl KeyBuf.push buf.resetLen
  ⟨b2.len, sortStrings b2.view ++ b2.arr.drop b2.len⟩

/-- Function `formatMap` (src/glogv.go lines 249-283) acting on the global scratch
buffer.  The `Option` is `none` exactly when the Go code panics. -/
def formatMapBuf (buf : KeyBuf) (m : GoMap) : Option String × KeyBuf :=
  if m.length = 0 then (some "", buf)
  else if m.length = 1 then
    match m with
    | [(k, v)] =>
      ((goAssertString v).map (fun s => " " ++ colorGray ++ k ++ "=" ++ colorReset ++ s), buf)
    | _ => (some "", buf)
  else
    (renderKeysLoop m "" (sortPhase buf m).view, sortPhase buf m)

/-- The string `formatMap` computes, as a pure function of the map: the
buffer turns out not to influence it (proved in `formatMapBuf_fst`). -/
def formatMapStr (m : GoMap) : Option String :=
  if m.length = 0 then some ""
  else if m.length = 1 then
    match m with
    | [(k, v)] =>
      (goAssertString v).map (fun s => " " ++ colorGray ++ k ++ "=" ++ colorReset ++ s)
    | _ => some ""
  else renderKeysLoop m "" (sortStrings (collectKeys m))

/-- The general sorted multi-key path of `formatMap` (src/glogv.go lines
263-282) taken unconditionally, i.e. without the single-key shortcut of
lines 256-261 — used to state the fast-path refinement claim. -/
def formatMapSortedPath (buf : KeyBuf) (m : GoMap) : Option String × KeyBuf :=
  (renderKeysLoop m "" (sortPhase buf m).view, sortPhase buf m)

/-- The sorted key list whose pairs the attribute segment renders. -/
def renderedKeys (m : GoMap) : List String := sortStrings (collectKeys m)

/-- Key `kXY` of entry `n` of the oversized test record. -/
def bigKey (n : Nat) : String :=
  String.mk ['k', Char.ofNat (65 + n / 26), Char.ofNat (65 + n % 26)]

/-- Value of entry `n`: entry 0 carries the marker `!`, the rest are
empty strings. -/
def bigVal (n : Nat) : JsonValue :=
  JsonValue.str (if n = 0 then "!" else "")

/-- One attribute entry of the oversized test record. -/
def bigPair (n : Nat) : String × JsonValue := (bigKey n, bigVal n)

/-- Entries 1..101 of the oversized test record. -/
def bigTail : GoMap := (List.range 101).map (fun n => bigPair (n + 1))

/-- A 102-key attribute record in one Go map iteration order. -/
def bigMapA : GoMap := bigPair 0 :: bigTail

/-- The same 102-key record in another iteration order (Go map iteration
order is unspecified and varies between runs). -/
def bigMapB : GoMap := bigTail ++ [bigPair 0]

/-- Opening brace character. -/
def lbrace : Char := Char.ofNat 123

/-- Closing brace character. -/
def rbrace : Char := Char.ofNat 125

/-- Hexadecimal digit value. -/
def hexVal (c : Char) : Option Nat :=
  if '0' ≤ c ∧ c ≤ '9' then some (c.toNat - 48)
  else if 'a' ≤ c ∧ c ≤ 'f' then some (c.toNat - 87)
  else if 'A' ≤ c ∧ c ≤ 'F' then some (c.toNat - 55)
  else none

/-- JSON insignificant whitespace. -/
def isWs (c : Char) : Bool :=
  c == ' ' || c == '\t' || c == '\n' || c == '\r'

/-- Skip insignificant whitespace. -/
def skipWs : List Char → List Char
  | [] => []
  | c :: cs => if isWs c then skipWs cs else c :: cs

/-- Longest decimal-digit prefix. -/
def spanDigits : List Char → List Char × List Char
  | [] => ([], [])
  | c :: cs =>
    if c.isDigit then
      ((c :: (spanDigits cs).1), (spanDigits cs).2)
    else ([], c :: cs)

/-- Four hex digits of a unicode escape. -/
def parseHex4 : List Char → Option (Nat × List Char)
  | a :: b :: c :: d :: rest => do
    let va ← hexVal a
    let vb ← hexVal b
    let vc ← hexVal c
    let vd ← hexVal d
    some (((va * 16 + vb) * 16 + vc) * 16 + vd, rest)
  | _ => none

/-- Body of a JSON string literal after the opening quote, as
encoding/json scans it: standard escapes, unicode escapes with UTF-16
surrogate pairs combined and lone surrogates replaced by U+FFFD, raw
control characters rejected.  Returns the decoded characters and the
input after the closing quote.  Fueled; callers pass enough fuel. -/
def parseStringBody : Nat → List Char → Option (List Char × List Char)
  | 0, _ => none
  | _, [] => none
  | fuel + 1, c :: cs =>
    if c = '\"' then some ([], cs)
    else if c = '\\' then
      match cs with
      | [] => none
      | e :: cs' =>
        if e = 'u' then
          match parseHex4 cs' with
          | none => none
          | some (n, rest1) =>
            if 0xD800 ≤ n ∧ n ≤ 0xDBFF then
              match rest1 with
              | '\\' :: 'u' :: rest2 =>
                match parseHex4 rest2 with
                | some (m, rest3) =>
                  if 0xDC00 ≤ m ∧ m ≤ 0xDFFF then
                    (parseStringBody fuel rest3).map
                      (fun pr =>
                        (Char.ofNat (0x10000 + (n - 0xD800) * 0x400 + (m - 0xDC00)) :: pr.1, pr.2))
                  else
                    (parseStringBody fuel rest1).map (fun pr => (Char.ofNat 0xFFFD :: pr.1, pr.2))
                | none => (parseStringBody fuel rest1).map (fun pr => (Char.ofNat 0xFFFD :: pr.1, pr.2))
              | _ => (parseStringBody fuel rest1).map (fun pr => (Char.ofNat 0xFFFD :: pr.1, pr.2))
            else if 0xDC00 ≤ n ∧ n ≤ 0xDFFF then
              (parseStringBody fuel rest1).map (fun pr => (Char.ofNat 0xFFFD :: pr.1, pr.2))
            else
              (parseStringBody fuel rest1).map (fun pr => (Char.ofNat n :: pr.1, pr.2))
        else
          match (if e = '\"' then some '\"' else if e = '\\' then some '\\'
            else if e = '/' then some '/' else if e = 'b' then some (Char.ofNat 8)
            else if e = 'f' then some (Char.ofNat 12) else if e = 'n' then some '\n'
            else if e = 'r' then some '\r' else if e = 't' then some '\t' else none) with
          | some ch => (parseStringBody fuel cs').map (fun pr => (ch :: pr.1, pr.2))
          | none => none
    else if c.toNat < 32 then none
    else (parseStringBody fuel cs).map (fun pr => (c :: pr.1, pr.2))

/-- Fractional part of a JSON number. -/
def parseFrac : List Char → Option (List Char × List Char)
  | '.' :: r =>
    match spanDigits r with
    | ([], _) => none
    | (d, r') => some ('.' :: d, r')
  | cs => some ([], cs)

/-- Exponent part of a JSON number. -/
def parseExp : List Char → Option (List Char × List Char)
  | c :: r =>
    if c = 'e' ∨ c = 'E' then
      match r with
      | s :: r' =>
        if s = '+' ∨ s = '-' then
          match spanDigits r' with
          | ([], _) => none
          | (d, r2) => some (c :: s :: d, r2)
        else
          match spanDigits r with
          | ([], _) => none
          | (d, r2) => some (c :: d, r2)
      | [] => none
    else some ([], c :: r)
  | [] => some ([], [])

/-- A JSON number literal: the syntax is validated, the lexeme kept. -/
def parseNumber (cs : List Char) : Option (List Char × List Char) :=
  let (neg, cs1) := match cs with
    | '-' :: r => ((['-'] : List Char), r)
    | _ => (([] : List Char), cs)
  match spanDigits cs1 with
  | ([], _) => none
  | (ds, cs2) =>
    if 2 ≤ ds.length ∧ ds.headD 'x' = '0' then none
    else
      match parseFrac cs2 with
      | none => none
      | some (fs, cs3) =>
        match parseExp cs3 with
        | none => none
        | some (es, cs4) => some (neg ++ ds ++ fs ++ es, cs4)

mutual

/-- A JSON value, as goccy/go-json (encoding/json-compatible) decodes
into `any`.  Fueled; the top-level caller passes enough fuel. -/
def parseValue : Nat → List Char → Option (JsonValue × List Char)
  | 0, _ => none
  | fuel + 1, cs =>
    match skipWs cs with
    | [] => none
    | c :: cs' =>
      if c = '\"' then
        (parseStringBody (cs'.length + 1) cs').map (fun pr => (.str (String.mk pr.1), pr.2))
      else if c = 't' then
        match cs' with
        | 'r' :: 'u' :: 'e' :: r => some (.bool true, r)
        | _ => none
      else if c = 'f' then
        match cs' with
        | 'a' :: 'l' :: 's' :: 'e' :: r => some (.bool false, r)
        | _ => none
      else if c = 'n' then
        match cs' with
        | 'u' :: 'l' :: 'l' :: r => some (.null, r)
        | _ => none
      else if c = '[' then
        match skipWs cs' with
        | ']' :: r => some (.arr [], r)
        | rest => (parseArrayElems fuel rest).map (fun pr => (.arr pr.1, pr.2))
      else if c = lbrace then
        match skipWs cs' with
        | d :: r =>
          if d = rbrace then some (.obj [], r)
          else (parseObjectFields fuel (d :: r)).map (fun pr => (.obj pr.1, pr.2))
        | [] => none
      else if c = '-' ∨ c.isDigit then
        (parseNumber (c :: cs')).map (fun pr => (.num (String.mk pr.1), pr.2))
      else none

/-- Comma-separated array elements up to the closing bracket. -/
def parseArrayElems : Nat → List Char → Option (List JsonValue × List Char)
  | 0, _ => none
  | fuel + 1, cs =>
    match parseValue fuel cs with
    | none => none
    | some (v, r) =>
      match skipWs r with
      | ',' :: r' => (parseArrayElems fuel r').map (fun pr => (v :: pr.1, pr.2))
      | ']' :: r' => some ([v], r')
      | _ => none

/-- Comma-separated key/value fields up to the closing brace. -/
def parseObjectFields : Nat → List Char → Option (List (String × JsonValue) × List Char)
  | 0, _ => none
  | fuel + 1, cs =>
    match skipWs cs with
    | c :: r =>
      if c = '\"' then
        match parseStringBody (r.length + 1) r with
        | none => none
        | some (kcs, r1) =>
          match skipWs r1 with
          | ':' :: r2 =>
            match parseValue fuel r2 with
            | none => none
            | some (v, r3) =>
              match skipWs r3 with
              | ',' :: r4 =>
                (parseObjectFields fuel r4).map (fun pr => ((String.mk kcs, v) :: pr.1, pr.2))
              | d :: r4 => if d = rbrace then some ([(String.mk kcs, v)], r4) else none
              | [] => none
          | _ => none
      else none
    | [] => none

end

/-- Insertion into the decoded Go map: assigning an existing key
overwrites in place (duplicate JSON keys resolve last-wins). -/
def putKV (m : GoMap) (k : String) (v : JsonValue) : GoMap :=
  if (m.map Prod.fst).contains k then
    m.map (fun p => if p.1 = k then (k, v) else p)
  else m ++ [(k, v)]

/-- Object fields folded into the decoded map. -/
def fieldsToMap (fs : List (String × JsonValue)) : GoMap :=
  fs.foldl (fun acc p => putKV acc p.1 p.2) []

/-- Model of `json.Unmarshal(b, &keyVals.Map)` for `Map : map[string]any`
(src/glogv.go line 160): the input must be one JSON value plus optional
whitespace, and that value must be an object. -/
def decodeJsonObject (cs : List Char) : Option GoMap :=
  match parseValue (2 * cs.length + 2) cs with
  | some (.obj fs, rest) => if skipWs rest = [] then some (fieldsToMap fs) else none
  | _ => none

/-- Wall-clock fields of a Go `time.Time` that this program observes
(`time.Kitchen` reads only hour and minute; a parsed time keeps the
wall clock of the string, in its own fixed zone). -/
structure GoTime where
  year : Nat
  month : Nat
  day : Nat
  hour : Nat
  minute : Nat
  second : Nat
deriving DecidableEq

/-- The zero `time.Time`: January 1, year 1, 00:00:00. -/
def zeroTime : GoTime := ⟨1, 1, 1, 0, 0, 0⟩

/-- Two decimal digits. -/
def digit2 (a b : Char) : Option Nat :=
  if a.isDigit ∧ b.isDigit then some ((a.toNat - 48) * 10 + (b.toNat - 48)) else none

/-- Four decimal digits. -/
def digit4 (a b c d : Char) : Option Nat :=
  if a.isDigit ∧ b.isDigit ∧ c.isDigit ∧ d.isDigit then
    some (((a.toNat - 48) * 10 + (b.toNat - 48)) * 100 + (c.toNat - 48) * 10 + (d.toNat - 48))
  else none

/-- Day count of a month in the proleptic Gregorian calendar. -/
def daysInMonth (y m : Nat) : Nat :=
  if m = 2 then (if y % 4 = 0 ∧ (y % 100 ≠ 0 ∨ y % 400 = 0) then 29 else 28)
  else if m = 4 ∨ m = 6 ∨ m = 9 ∨ m = 11 then 30 else 31

/-- Optional fractional-second suffix: a decimal point or a comma
followed by a maximal run of at least one digit — Go's parser accepts
either separator when parsing (a bare separator with no digit is not
consumed, and the parse then fails at the zone, an error either way). -/
def parseFracSecond : List Char → Option (List Char)
  | c :: r =>
    if c = '.' ∨ c = ',' then
      match spanDigits r with
      | ([], _) => none
      | (_, r') => some r'
    else some (c :: r)
  | [] => some []

/-- Model of Go `time.Parse(time.RFC3339, s)`.  `time.Parse` tries a
strict RFC3339 fast path and, when that fails, falls back to the general
layout parser, so the accepted language is the general parser's: the
layout `YYYY-MM-DDThh:mm:ss`, an optional fractional second introduced
by a dot or a comma, and a zone of `Z` or a signed `hh:mm` whose offset
digits are read but not range-checked (`+99:00` parses); the calendar
and clock fields are range-checked (month 1-12, day within the month,
hour to 23, minute and second to 59).  `none` is a parse error; the
caller discards it, keeping the zero time. -/
def parseRFC3339 (s : String) : Option GoTime :=
  match s.data with
  | y1 :: y2 :: y3 :: y4 :: '-' :: m1 :: m2 :: '-' :: d1 :: d2 :: 'T'
      :: h1 :: h2 :: ':' :: i1 :: i2 :: ':' :: s1 :: s2 :: rest => do
    let y ← digit4 y1 y2 y3 y4
    let mo ← digit2 m1 m2
    let d ← digit2 d1 d2
    let h ← digit2 h1 h2
    let mi ← digit2 i1 i2
    let se ← digit2 s1 s2
    if 1 ≤ mo ∧ mo ≤ 12 ∧ 1 ≤ d ∧ d ≤ daysInMonth y mo ∧ h ≤ 23 ∧ mi ≤ 59 ∧ se ≤ 59 then
      match parseFracSecond rest with
      | none => none
      | some r1 =>
        match r1 with
        | ['Z'] => some ⟨y, mo, d, h, mi, se⟩
        | c :: z1 :: z2 :: ':' :: z3 :: z4 :: [] =>
          if c = '+' ∨ c = '-' then do
            let _ ← digit2 z1 z2
            let _ ← digit2 z3 z4
            some ⟨y, mo, d, h, mi, se⟩
          else none
        | _ => none
    else none
  | _ => none

/-- Model of `t.Format(time.Kitchen)` — layout `3:04PM`: 12-hour clock
hour without leading zero, two-digit minutes, AM or PM. -/
def formatKitchen (t : GoTime) : String :=
  let h12 := (t.hour + 11) % 12 + 1
  let ampm := if t.hour < 12 then "AM" else "PM"
  let mm := (if t.minute < 10 then "0" else "") ++ toString t.minute
  toString h12 ++ ":" ++ mm ++ ampm

/-- Function `formatTime` (src/glogv.go lines 198-206): Kitchen format in
gray, zero-padded to fixed width when the hour has one digit. -/
def formatTime (t : GoTime) : String :=
  let s := formatKitchen t
  if s.length = 6 then colorGray ++ "0" ++ s else colorGray ++ s

/-- A Go byte slice as handed to `reformat`: the visible bytes plus the
spare capacity bytes between length and capacity.  For scanner tokens the
spare region is the rest of the scanner's buffer, beginning with the
line's delimiter bytes. -/
structure Slice where
  data : List Char
  spare : List Char
deriving DecidableEq

/-- Outcome of `reformat` on one line: an unrecovered panic, a silent
drop, or one printed line. -/
inductive RunOut where
  | panicked
  | dropped
  | printed (line : String)
deriving DecidableEq

/-- Extraction of one recognized field (src/glogv.go lines 168-176):
`if val, ok := m[key]; ok { x = val.(string) }` — an absent field leaves
the empty string, a present non-string value panics. -/
def extractString (key : String) (m : GoMap) : Option String :=
  match getVal key m with
  | none => some ""
  | some v => goAssertString v

/-- Extraction and parse of the time field (src/glogv.go lines 165-167):
`tm, _ = time.Parse(time.RFC3339, val.(string))` — the parse error is
discarded, keeping the zero time; a present non-string value panics. -/
def extractTime (m : GoMap) : Option GoTime :=
  match getVal "time" m with
  | none => some zeroTime
  | some v => (goAssertString v).map (fun s => (parseRFC3339 s).getD zeroTime)

/-- The rendered time segment of a record: time extraction composed with
`formatTime`. -/
def timeSegment (m : GoMap) : Option String := (extractTime m).map formatTime

/-- Function `reformat` (src/glogv.go lines 149-195): guard on the first
byte of the slice (`b[:1]`, a panic when the capacity is zero), JSON
decode, recognized-field extraction (panicking on ill-typed fields),
deletion of the four keys, the attribute rendering, and the final print
(the printed string includes the trailing newline of the `Printf`). -/
def reformatBuf (buf : KeyBuf) (b : Slice) : RunOut × KeyBuf :=
  if b.data.length + b.spare.length = 0 then (.panicked, buf)
  else if (b.data ++ b.spare).take 1 ≠ [lbrace] then (.dropped, buf)
  else
    match decodeJsonObject b.data with
    | none => (.dropped, buf)
    | some m =>
      match extractTime m, extractString "level" m, extractString "message" m,
          extractString "error" m with
      | some tm, some level, some message, some errorx =>
        let m' := delKey "error" (delKey "message" (delKey "level" (delKey "time" m)))
        match formatMapBuf buf m' with
        | (some valStr, buf') =>
          (.printed (formatTime tm ++ formatLevel level ++ formatMessage message level
            ++ formatError errorx ++ valStr ++ "\n"), buf')
        | (none, buf') => (.panicked, buf')
      | _, _, _, _ => (.panicked, buf)

/-- One engine run: the scanner loop `for scanner.Scan() { reformat(...) }`
over a list of line tokens.  A panic aborts the run; printed lines
accumulate in order. -/
def runLines (buf : KeyBuf) : List Slice → Option (List String)
  | [] => some []
  | l :: ls =>
    match reformatBuf buf l with
    | (.panicked, _) => none
    | (.dropped, buf') => runLines buf' ls
    | (.printed s, buf') => (runLines buf' ls).map (s :: ·)

/-- First line of a buffer: the content before the first newline and the
remainder after it (`none` when no newline exists). -/
def breakLine : List Char → List Char × Option (List Char)
  | [] => ([], none)
  | c :: cs =>
    if c = '\n' then ([], some cs)
    else ((c :: (breakLine cs).1), (breakLine cs).2)

/-- Model of `dropCR` of bufio.ScanLines: strip one trailing carriage
return. -/
def dropCR (l : List Char) : List Char :=
  if l.getLast? = some '\r' then l.dropLast else l

/-- Model of bufio.Scanner with bufio.ScanLines over a buffered input:
each token is a line without its terminator, and its capacity region is
the rest of the underlying buffer after the token bytes.  At end of input
a final non-empty remainder forms a last token; a final empty remainder
yields no token. -/
def scanLinesF : Nat → List Char → List Slice
  | 0, _ => []
  | fuel + 1, input =>
    if input = [] then []
    else
      match breakLine input with
      | (line, some rest) =>
        ⟨dropCR line, input.drop (dropCR line).length⟩ :: scanLinesF fuel rest
      | (line, none) => [⟨dropCR line, input.drop (dropCR line).length⟩]

/-- The token stream the scanner produces from an input. -/
def scanLines (input : List Char) : List Slice :=
  scanLinesF (input.length + 1) input

/-- A non-JSON test line. -/
def badLine : Slice := ⟨"hello world".data, ['\n']⟩

/-- A well-formed test record. -/
def validLine : Slice := ⟨"\x7b\x22level\x22:\x22info\x22,\x22message\x22:\x22hi\x22\x7d".data, ['\n']⟩

/-! ### Scratch-buffer lemmas -/

theorem KeyBuf.view_resetLen (b : KeyBuf) : b.resetLen.view = [] := rfl

theorem KeyBuf.view_push (b : KeyBuf) (k : String) : (b.push k).view = b.view ++ [k] := by
  unfold KeyBuf.push KeyBuf.view
  by_cases h : b.len < b.arr.length
  · simp only [if_pos h]
    rw [List.take_succ, List.set_take, List.set_eq_of_length_le (by simp [List.length_take]),
      List.getElem?_set_self h]
    rfl
  · simp only [if_neg h]
    push_neg at h
    rw [List.take_of_length_le (by simp only [List.length_append, List.length_singleton]; omega),
      List.take_of_length_le h]

theorem KeyBuf.len_push (b : KeyBuf) (k : String) : (b.push k).len = b.len + 1 := by
  unfold KeyBuf.push; split <;> rfl

theorem view_foldl_push (ks : List String) :
    ∀ b : KeyBuf, (ks.foldl KeyBuf.push b).view = b.view ++ ks := by
  induction ks with
  | nil => intro b; simp [List.foldl]
  | cons k ks ih =>
    intro b
    simp only [List.foldl, ih, KeyBuf.view_push, List.append_assoc, List.singleton_append]

theorem len_foldl_push (ks : List String) :
    ∀ b : KeyBuf, (ks.foldl KeyBuf.push b).len = b.len + ks.length := by
  induction ks with
  | nil => intro b; simp [List.foldl]
  | cons k ks ih =>
    intro b
    simp only [List.foldl, ih, KeyBuf.len_push, List.length_cons]
    omega

/-! ### Order facts for the string sort -/

theorem lexLe_total : ∀ a b, lexLe a b = true ∨ lexLe b a = true
  | [], _ => Or.inl rfl
  | _ :: _, [] => Or.inr rfl
  | a :: as, b :: bs => by
    by_cases hab : a < b
    · left; simp [lexLe, hab]
    · by_cases hba : b < a
      · right; simp [lexLe, hba]
      · rcases lexLe_total as bs with h | h
        · left; simp [lexLe, hab, hba, h]
        · right; simp [lexLe, hab, hba, h]

theorem lexLe_trans : ∀ a b c, lexLe a b = true → lexLe b c = true → lexLe a c = true
  | [], _, _ => by intro _ _; rfl
  | _ :: _, [], _ => by intro h _; exact absurd h (by simp [lexLe])
  | _ :: _, _ :: _, [] => by intro _ h; exact absurd h (by simp [lexLe])
  | a :: as, b :: bs, c :: cs => by
    intro h1 h2
    simp only [lexLe] at h1 h2 ⊢
    by_cases hab : a < b
    · by_cases hbc : b < c
      · simp [lt_trans hab hbc]
      · by_cases hcb : c < b
        · exact absurd h2 (by simp [hbc, hcb])
        · have : b = c := le_antisymm (not_lt.1 hcb) (not_lt.1 hbc)
          simp [this ▸ hab]
    · by_cases hba : b < a
      · exact absurd h1 (by simp [hab, hba])
      · have hab' : a = b := le_antisymm (not_lt.1 hba) (not_lt.1 hab)
        subst hab'
        by_cases hbc : a < c
        · simp [hbc]
        · by_cases hcb : c < a
          · exact absurd h2 (by simp [hbc, hcb])
          · simp only [if_neg hbc, if_neg hcb] at h2 ⊢
            simp only [lexLe, if_neg hab, if_neg hba] at h1
            exact lexLe_trans as bs cs h1 h2

theorem lexLe_antisymm : ∀ a b, lexLe a b = true → lexLe b a = true → a = b
  | [], [] => by intro _ _; rfl
  | [], _ :: _ => by intro _ h; exact absurd h (by simp [lexLe])
  | _ :: _, [] => by intro h _; exact absurd h (by simp [lexLe])
  | a :: as, b :: bs => by
    intro h1 h2
    simp only [lexLe] at h1 h2
    by_cases hab : a < b
    · exact absurd h2 (by simp [hab, lt_asymm hab])
    · by_cases hba : b < a
      · exact absurd h1 (by simp [hab, hba])
      · have : a = b := le_antisymm (not_lt.1 hba) (not_lt.1 hab)
        subst this
        simp only [if_neg hab, if_neg hba] at h1 h2
        exact congrArg (a :: ·) (lexLe_antisymm as bs h1 h2)

instance : IsTotal String strLe := ⟨fun a b => lexLe_total a.data b.data⟩

instance : IsTrans String strLe := ⟨fun a b c => lexLe_trans a.data b.data c.data⟩

instance : IsAntisymm String strLe :=
  ⟨fun a b h1 h2 => by
    cases a; cases b
    exact congrArg String.mk (lexLe_antisymm _ _ h1 h2)⟩

theorem sortStrings_sorted (l : List String) : List.Sorted strLe (sortStrings l) :=
  List.sorted_insertionSort strLe l

theorem sortStrings_perm (l : List String) : List.Perm (sortStrings l) l :=
  List.perm_insertionSort strLe l

theorem sortStrings_length (l : List String) : (sortStrings l).length = l.length :=
  (sortStrings_perm l).length_eq

theorem sortStrings_eq_of_perm {l1 l2 : List String} (h : List.Perm l1 l2) :
    sortStrings l1 = sortStrings l2 :=
  List.eq_of_perm_of_sorted ((sortStrings_perm l1).trans (h.trans (sortStrings_perm l2).symm))
    (sortStrings_sorted l1) (sortStrings_sorted l2)

/-! ### Map-lookup lemmas -/

theorem getVal_eq_none_iff (k : String) : ∀ m : GoMap, getVal k m = none ↔ k ∉ m.map Prod.fst := by
  intro m
  induction m with
  | nil => simp [getVal]
  | cons p rest ih =>
    obtain ⟨k', v'⟩ := p
    by_cases h : k' = k
    · subst h; simp [getVal]
    · simp [getVal, h, ih, Ne.symm h]

theorem getVal_eq_some_iff {m : GoMap} (hnd : (m.map Prod.fst).Nodup) {k : String}
    {v : JsonValue} : getVal k m = some v ↔ (k, v) ∈ m := by
  induction m with
  | nil => simp [getVal]
  | cons p rest ih =>
    obtain ⟨k', v'⟩ := p
    simp only [List.map_cons, List.nodup_cons] at hnd
    simp only [getVal, List.mem_cons]
    by_cases h : k' = k
    · subst h
      rw [if_pos rfl]
      constructor
      · intro h''
        injection h'' with hv
        exact Or.inl (by rw [hv])
      · rintro (h' | h')
        · injection h' with _ hv
          rw [hv]
        · exact absurd (List.mem_map_of_mem Prod.fst h') hnd.1
    · rw [if_neg h, ih hnd.2]
      constructor
      · exact Or.inr
      · rintro (h' | h')
        · exact absurd (congrArg Prod.fst h').symm h
        · exact h'

theorem getVal_perm {m1 m2 : GoMap} (hp : m1.Perm m2) (hnd : (m1.map Prod.fst).Nodup)
    (k : String) : getVal k m1 = getVal k m2 := by
  have hnd2 : (m2.map Prod.fst).Nodup := ((hp.map Prod.fst).nodup_iff).1 hnd
  cases h1 : getVal k m1 with
  | some v =>
    exact ((getVal_eq_some_iff hnd2).2 (hp.mem_iff.1 ((getVal_eq_some_iff hnd).1 h1))).symm
  | none =>
    have : k ∉ m2.map Prod.fst := fun hk =>
      ((getVal_eq_none_iff k m1).1 h1) (((hp.map Prod.fst).mem_iff).2 hk)
    exact ((getVal_eq_none_iff k m2).2 this).symm

theorem renderKeysLoop_congr {m1 m2 : GoMap} (h : ∀ k, getVal k m1 = getVal k m2) :
    ∀ (ks : List String) (acc : String), renderKeysLoop m1 acc ks = renderKeysLoop m2 acc ks := by
  intro ks
  induction ks with
  | nil => intro acc; rfl
  | cons k ks ih =>
    intro acc
    simp only [renderKeysLoop, renderStep, h k]
    cases getVal k m2 with
    | none => rfl
    | some v =>
      simp only [Option.some_bind]
      cases goAssertString v with
      | none => rfl
      | some s =>
        simp only [Option.map_some', Option.some_bind]
        exact ih _

/-! ### The buffer does not influence the rendered string -/

theorem sortPhase_view (buf : KeyBuf) (m : GoMap) :
    (sortPhase buf m).view = sortStrings (collectKeys m) := by
  unfold sortPhase KeyBuf.view
  simp only
  have hview : ((collectKeys m).foldl KeyBuf.push buf.resetLen).view = collectKeys m := by
    rw [view_foldl_push, KeyBuf.view_resetLen, List.nil_append]
  have hlen : ((collectKeys m).foldl KeyBuf.push buf.resetLen).len = (collectKeys m).length := by
    rw [len_foldl_push]; exact Nat.zero_add _
  rw [KeyBuf.view] at hview
  rw [hview, hlen]
  exact List.take_left' (by rw [sortStrings_length])

theorem formatMapBuf_fst (buf : KeyBuf) (m : GoMap) :
    (formatMapBuf buf m).fst = formatMapStr m := by
  unfold formatMapBuf formatMapStr
  by_cases h0 : m.length = 0
  · simp [h0]
  · by_cases h1 : m.length = 1
    · simp only [if_neg h0, if_pos h1]
      match m with
      | [(k, v)] => rfl
      | [] => rfl
      | _ :: _ :: _ => simp at h1
    · simp only [if_neg h0, if_neg h1]
      rw [sortPhase_view]

theorem formatMapStr_perm {m1 m2 : GoMap} (hp : List.Perm m1 m2)
    (hnd : (m1.map Prod.fst).Nodup) (hle : m1.length ≤ maxKeys + 1) :
    formatMapStr m1 = formatMapStr m2 := by
  have hlen := hp.length_eq
  by_cases h0 : m1.length = 0
  · obtain rfl : m1 = [] := List.length_eq_zero.1 h0
    obtain rfl : m2 = [] := List.length_eq_zero.1 (hlen ▸ h0)
    rfl
  · by_cases h1 : m1.length = 1
    · obtain ⟨p, rfl⟩ := List.length_eq_one.1 h1
      obtain rfl : m2 = [p] := List.perm_singleton.1 hp.symm
      rfl
    · unfold formatMapStr
      rw [if_neg h0, if_neg h1, if_neg (hlen ▸ h0), if_neg (hlen ▸ h1)]
      have hc1 : collectKeys m1 = m1.map Prod.fst :=
        List.take_of_length_le (by rw [List.length_map]; omega)
      have hc2 : collectKeys m2 = m2.map Prod.fst :=
        List.take_of_length_le (by rw [List.length_map]; omega)
      have hsort : sortStrings (collectKeys m1) = sortStrings (collectKeys m2) := by
        rw [hc1, hc2]
        exact sortStrings_eq_of_perm (hp.map Prod.fst)
      rw [hsort]
      exact renderKeysLoop_congr (getVal_perm hp hnd) _ _

/-! ### Counting rendered pairs in the oversized record -/

theorem sum_map_congr_const {α : Type} (l : List α) (f : α → Nat) (c : Nat)
    (h : ∀ x ∈ l, f x = c) : (l.map f).sum = c * l.length := by
  induction l with
  | nil => simp
  | cons a l ih =>
    rw [List.map_cons, List.sum_cons, h a (List.mem_cons_self a l),
      ih (fun x hx => h x (List.mem_cons_of_mem a hx)), List.length_cons]
    ring

theorem sum_map_indicator (l : List String) (f : String → Nat) (a0 : String)
    (h : ∀ x ∈ l, f x = if x = a0 then 1 else 0) : (l.map f).sum = l.count a0 := by
  induction l with
  | nil => simp
  | cons a l ih =>
    rw [List.map_cons, List.sum_cons, h a (List.mem_cons_self a l),
      ih (fun x hx => h x (List.mem_cons_of_mem a hx)), List.count_cons]
    by_cases ha : a = a0
    · simp [ha]
      omega
    · simp [ha, Ne.symm ha]

theorem renderKeysLoop_count (m : GoMap) (ch : Char) :
    ∀ (ks : List String) (acc : String),
    (∀ k ∈ ks, ∃ s, (getVal k m).bind goAssertString = some s) →
    ∃ out, renderKeysLoop m acc ks = some out ∧
      out.data.count ch
        = acc.data.count ch
          + (ks.map (fun k =>
              (" " ++ colorGray ++ k ++ "=" ++ colorReset
                ++ (((getVal k m).bind goAssertString).getD "")).data.count ch)).sum := by
  intro ks
  induction ks with
  | nil => intro acc _; exact ⟨acc, rfl, by simp⟩
  | cons k ks ih =>
    intro acc hall
    obtain ⟨s, hs⟩ := hall k (List.mem_cons_self k ks)
    obtain ⟨v, hv, hvs⟩ := Option.bind_eq_some.1 hs
    have hstep : renderStep m acc k
        = some (acc ++ " " ++ colorGray ++ k ++ "=" ++ colorReset ++ s) := by
      unfold renderStep
      rw [hv, Option.some_bind, hvs]
      rfl
    obtain ⟨out, hout, hcount⟩ := ih (acc ++ " " ++ colorGray ++ k ++ "=" ++ colorReset ++ s)
      (fun x hx => hall x (List.mem_cons_of_mem k hx))
    refine ⟨out, ?_, ?_⟩
    · show (renderStep m acc k).bind _ = some out
      rw [hstep, Option.some_bind]
      exact hout
    · rw [hcount]
      simp only [String.data_append, List.count_append, List.map_cons, List.sum_cons, hs,
        Option.getD_some]
      omega

set_option maxRecDepth 2000 in
theorem bigNodup : (bigMapA.map Prod.fst).Nodup := by decide

set_option maxRecDepth 2000 in
theorem bigKey0_notin_tail : bigKey 0 ∉ bigTail.map Prod.fst := by decide

set_option maxRecDepth 2000 in
theorem bigKeys_clean :
    ∀ k ∈ bigMapA.map Prod.fst, k.data.count '=' = 0 ∧ k.data.count '!' = 0 := by decide

theorem keysA_eq : bigMapA.map Prod.fst = bigKey 0 :: bigTail.map Prod.fst := rfl

theorem tailKeys_len : (bigTail.map Prod.fst).length = 101 := by
  simp [bigTail]

theorem bigTail_val : ∀ p ∈ bigTail, p.2 = JsonValue.str "" := by
  intro p hp
  obtain ⟨n, _, rfl⟩ := List.mem_map.1 hp
  simp [bigPair, bigVal]

theorem getVal_bigA_key0 : getVal (bigKey 0) bigMapA = some (JsonValue.str "!") :=
  (getVal_eq_some_iff bigNodup).2 (List.mem_cons_self _ _)

theorem getVal_bigA_tailkey :
    ∀ k ∈ bigTail.map Prod.fst, getVal k bigMapA = some (JsonValue.str "") := by
  intro k hk
  obtain ⟨p, hp, rfl⟩ := List.mem_map.1 hk
  have hv := bigTail_val p hp
  refine (getVal_eq_some_iff bigNodup).2 ?_
  refine List.mem_cons_of_mem _ ?_
  rw [← hv]
  exact hp

theorem collectA_eq : collectKeys bigMapA = bigKey 0 :: (bigTail.map Prod.fst).take 100 := rfl

theorem keysB_eq : bigMapB.map Prod.fst = bigTail.map Prod.fst ++ [bigKey 0] := by
  simp [bigMapB, bigPair]

theorem collectB_eq : collectKeys bigMapB = bigTail.map Prod.fst := by
  unfold collectKeys
  rw [keysB_eq]
  exact List.take_left' (by rw [tailKeys_len]; decide)

/-! ### Claims about formatMap -/

/-- Claim C9 (confirmed): for a record whose attribute map retains exactly one
key, the single-key fast path of `formatMap` (src/glogv.go lines 256-261)
produces the same string as the general sorted multi-key path
(lines 263-282) would on that one-element map. -/
theorem c9_single_key_fast_path_eq_sorted_path (buf : KeyBuf) (k v : String) :
    (formatMapBuf buf [(k, JsonValue.str v)]).fst
      = (formatMapSortedPath buf [(k, JsonValue.str v)]).fst := by
  unfold formatMapBuf formatMapSortedPath
  rw [sortPhase_view]
  simp [renderKeysLoop, renderStep, getVal, goAssertString, collectKeys, sortStrings,
    List.insertionSort, List.orderedInsert, maxKeys]

/-- Claim C8 counterexample: the levels `fatal` and `trace`, claimed to map to
their own 3-letter uppercase display tags, in fact fall to the default
branch of `formatLevel` and render the unknown tag `" ???"`, identical to
an arbitrary unrecognized level; `?` is not an uppercase letter. -/
theorem c8_fatal_trace_get_unknown_tag :
    formatLevel "fatal" = " ???" ∧ formatLevel "trace" = " ???" ∧
    formatLevel "fatal" = formatLevel "bogus" ∧ Char.isUpper '?' = false := by
  refine ⟨by decide, by decide, by decide, by decide⟩

/-- Claim C8 (corrected): `formatLevel` maps the five recognized levels info,
warn, debug, error, panic each to exactly one 3-letter uppercase tag in
the level's color, and every other string — including `fatal` and
`trace` — to the unknown tag `" ???"`, never erroring. -/
theorem c8_level_mapping :
    formatLevel "info" = " " ++ colorGreen ++ "INF" ∧
    formatLevel "warn" = " " ++ colorYellow ++ "WRN" ∧
    formatLevel "debug" = " " ++ colorCyan ++ "DBG" ∧
    formatLevel "error" = " " ++ colorRed ++ "ERR" ∧
    formatLevel "panic" = " " ++ colorPurple ++ "PNC" ∧
    ∀ s : String, s ≠ "info" → s ≠ "warn" → s ≠ "debug" → s ≠ "error" → s ≠ "panic" →
      formatLevel s = " ???" := by
  refine ⟨by decide, by decide, by decide, by decide, by decide, ?_⟩
  intro s h1 h2 h3 h4 h5
  simp [formatLevel, h1, h2, h3, h4, h5]

theorem c8_level_mapping_witness :
    formatLevel "fatal" = " ???" ∧ formatLevel "info" = " " ++ colorGreen ++ "INF" :=
  ⟨c8_level_mapping.2.2.2.2.2 "fatal" (by decide) (by decide) (by decide) (by decide) (by decide),
   c8_level_mapping.1⟩

/-- Claim C2 (code bug): a record whose remaining attribute values include
non-strings makes `formatMap` panic — the unchecked type assertion
`v.(string)` (src/glogv.go lines 259 and 279) aborts the line instead of
stringifying the value.  Shown for the single-key path (`{"count": 5}`)
and for the sorted multi-key path (`{"a": 1, "b": true}`). -/
theorem c2_formatMap_nonstring_value_panics :
    (formatMapBuf ⟨0, []⟩ [("count", JsonValue.num "5")]).fst = none ∧
    (formatMapBuf ⟨0, []⟩ [("a", JsonValue.num "1"), ("b", JsonValue.bool true)]).fst = none := by
  refine ⟨by decide, by decide⟩

/-- Claim C5 (confirmed): whenever two or more keys remain, the attribute
segment renders the key=value pairs over a strictly ascending key list,
whatever order the keys appeared in. -/
theorem c5_attributes_sorted (buf : KeyBuf) (m : GoMap)
    (h2 : 2 ≤ m.length) (hnd : (m.map Prod.fst).Nodup) :
    List.Sorted (fun a b => strLe a b ∧ a ≠ b) (renderedKeys m) ∧
    (formatMapBuf buf m).fst = renderKeysLoop m "" (renderedKeys m) := by
  constructor
  · have hs : List.Sorted strLe (renderedKeys m) := sortStrings_sorted _
    have hn : (renderedKeys m).Nodup := by
      have hck : (collectKeys m).Nodup :=
        (List.take_sublist _ _).nodup hnd
      exact ((sortStrings_perm (collectKeys m)).nodup_iff).2 hck
    exact hs.and hn
  · rw [formatMapBuf_fst]
    unfold formatMapStr renderedKeys
    rw [if_neg (by omega), if_neg (by omega)]

theorem c5_attributes_sorted_witness :
    ((formatMapBuf ⟨0, []⟩ [("b", JsonValue.str "2"), ("a", JsonValue.str "1")]).fst
        = renderKeysLoop [("b", JsonValue.str "2"), ("a", JsonValue.str "1")] ""
            (renderedKeys [("b", JsonValue.str "2"), ("a", JsonValue.str "1")])) ∧
    renderedKeys [("b", JsonValue.str "2"), ("a", JsonValue.str "1")] = ["a", "b"] ∧
    (formatMapBuf ⟨0, []⟩ [("b", JsonValue.str "2"), ("a", JsonValue.str "1")]).fst
        = some (" " ++ colorGray ++ "a" ++ "=" ++ colorReset ++ "1"
            ++ " " ++ colorGray ++ "b" ++ "=" ++ colorReset ++ "2") :=
  ⟨(c5_attributes_sorted ⟨0, []⟩ _ (by decide) (by decide)).2, by decide, by decide⟩

/-- Claim C4 (corrected): the reused global key-sort scratch buffer never
influences the rendered string, and for records retaining at most
`maxKeys + 1` attribute keys the rendered string is a deterministic
function of the record alone, independent of the unspecified Go map
iteration order.  (Beyond that size determinism fails, see the
counterexample.) -/
theorem c4_deterministic_within_cap :
    (∀ (b1 b2 : KeyBuf) (m : GoMap), (formatMapBuf b1 m).fst = (formatMapBuf b2 m).fst) ∧
    (∀ (b1 b2 : KeyBuf) (m1 m2 : GoMap), List.Perm m1 m2 → (m1.map Prod.fst).Nodup →
      m1.length ≤ maxKeys + 1 → (formatMapBuf b1 m1).fst = (formatMapBuf b2 m2).fst) := by
  constructor
  · intro b1 b2 m
    rw [formatMapBuf_fst, formatMapBuf_fst]
  · intro b1 b2 m1 m2 hp hnd hle
    rw [formatMapBuf_fst, formatMapBuf_fst]
    exact formatMapStr_perm hp hnd hle

theorem c4_deterministic_within_cap_witness :
    (formatMapBuf ⟨0, []⟩ [("b", JsonValue.str "2"), ("a", JsonValue.str "1")]).fst
      = (formatMapBuf ⟨2, ["stale", "junk"]⟩
          [("a", JsonValue.str "1"), ("b", JsonValue.str "2")]).fst :=
  c4_deterministic_within_cap.2 ⟨0, []⟩ ⟨2, ["stale", "junk"]⟩ _ _
    (List.Perm.swap ("a", JsonValue.str "1") ("b", JsonValue.str "2") [])
    (by decide) (by decide)

/-- Claim C4 counterexample: one 102-key record, presented in two of the
iteration orders Go's randomized map traversal can produce, renders two
different strings (entry 0, whose value carries the marker `!`, is
rendered in one order and dropped by the key cap in the other) — so two
sequential runs over identical input are not byte-identical once a
record exceeds the key cap. -/
theorem c4_iteration_order_changes_output :
    List.Perm bigMapA bigMapB ∧
    (formatMapBuf ⟨0, []⟩ bigMapA).fst ≠ (formatMapBuf ⟨0, []⟩ bigMapB).fst := by
  have hperm : List.Perm bigMapA bigMapB := (List.perm_append_singleton (bigPair 0) bigTail).symm
  refine ⟨hperm, ?_⟩
  rw [formatMapBuf_fst, formatMapBuf_fst]
  have hlenA : bigMapA.length = 102 := by simp [bigMapA, bigTail]
  have hlenB : bigMapB.length = 102 := by simp [bigMapB, bigTail]
  have hksA_mem : ∀ k ∈ sortStrings (collectKeys bigMapA),
      k = bigKey 0 ∨ k ∈ bigTail.map Prod.fst := by
    intro k hk
    have h1 : k ∈ collectKeys bigMapA := (sortStrings_perm _).mem_iff.1 hk
    rw [collectA_eq] at h1
    rcases List.mem_cons.1 h1 with h0 | h2
    · exact Or.inl h0
    · exact Or.inr ((List.take_sublist _ _).subset h2)
  have hexA : ∀ k ∈ sortStrings (collectKeys bigMapA),
      ∃ s, (getVal k bigMapA).bind goAssertString = some s := by
    intro k hk
    rcases hksA_mem k hk with rfl | h2
    · exact ⟨"!", by rw [getVal_bigA_key0]; rfl⟩
    · exact ⟨"", by rw [getVal_bigA_tailkey k h2]; rfl⟩
  obtain ⟨outA, houtA, hcntA⟩ :=
    renderKeysLoop_count bigMapA '!' (sortStrings (collectKeys bigMapA)) "" hexA
  have hksB_mem : ∀ k ∈ sortStrings (collectKeys bigMapB), k ∈ bigTail.map Prod.fst := by
    intro k hk
    have h1 : k ∈ collectKeys bigMapB := (sortStrings_perm _).mem_iff.1 hk
    rwa [collectB_eq] at h1
  have hgetB : ∀ k, getVal k bigMapB = getVal k bigMapA :=
    fun k => (getVal_perm hperm bigNodup k).symm
  have hexB : ∀ k ∈ sortStrings (collectKeys bigMapB),
      ∃ s, (getVal k bigMapB).bind goAssertString = some s := by
    intro k hk
    exact ⟨"", by rw [hgetB k, getVal_bigA_tailkey k (hksB_mem k hk)]; rfl⟩
  obtain ⟨outB, houtB, hcntB⟩ :=
    renderKeysLoop_count bigMapB '!' (sortStrings (collectKeys bigMapB)) "" hexB
  have hpA : ∀ k ∈ sortStrings (collectKeys bigMapA),
      (" " ++ colorGray ++ k ++ "=" ++ colorReset
        ++ (((getVal k bigMapA).bind goAssertString).getD "")).data.count '!'
        = if k = bigKey 0 then 1 else 0 := by
    intro k hk
    rcases hksA_mem k hk with rfl | h2
    · rw [if_pos rfl, getVal_bigA_key0]
      have hk0 := (bigKeys_clean (bigKey 0) (by rw [keysA_eq]; exact List.mem_cons_self _ _)).2
      simp only [Option.some_bind, goAssertString, Option.getD_some, String.data_append,
        List.count_append]
      rw [hk0]
      decide
    · have hne : k ≠ bigKey 0 := by
        intro he
        rw [he] at h2
        exact bigKey0_notin_tail h2
      rw [if_neg hne, getVal_bigA_tailkey k h2]
      have hk1 := (bigKeys_clean k (by rw [keysA_eq]; exact List.mem_cons_of_mem _ h2)).2
      simp only [Option.some_bind, goAssertString, Option.getD_some, String.data_append,
        List.count_append]
      rw [hk1]
      decide
  have hpB : ∀ k ∈ sortStrings (collectKeys bigMapB),
      (" " ++ colorGray ++ k ++ "=" ++ colorReset
        ++ (((getVal k bigMapB).bind goAssertString).getD "")).data.count '!' = 0 := by
    intro k hk
    have h2 := hksB_mem k hk
    rw [hgetB k, getVal_bigA_tailkey k h2]
    have hk1 := (bigKeys_clean k (by rw [keysA_eq]; exact List.mem_cons_of_mem _ h2)).2
    simp only [Option.some_bind, goAssertString, Option.getD_some, String.data_append,
      List.count_append]
    rw [hk1]
    decide
  have hndA : (sortStrings (collectKeys bigMapA)).Nodup := by
    have hcoll : (collectKeys bigMapA).Nodup := (List.take_sublist _ _).nodup bigNodup
    exact ((sortStrings_perm _).nodup_iff).2 hcoll
  have hmemA : bigKey 0 ∈ sortStrings (collectKeys bigMapA) := by
    apply (sortStrings_perm _).mem_iff.2
    rw [collectA_eq]
    exact List.mem_cons_self _ _
  have h1 : outA.data.count '!' = 1 := by
    rw [hcntA, sum_map_indicator _ _ (bigKey 0) hpA, List.count_eq_one_of_mem hndA hmemA]
    decide
  have h2 : outB.data.count '!' = 0 := by
    rw [hcntB, sum_map_congr_const _ _ 0 hpB]
    simp
  have hfmA : formatMapStr bigMapA = some outA := by
    unfold formatMapStr
    rw [if_neg (by omega), if_neg (by omega), houtA]
  have hfmB : formatMapStr bigMapB = some outB := by
    unfold formatMapStr
    rw [if_neg (by omega), if_neg (by omega), houtB]
  rw [hfmA, hfmB]
  intro heq
  have hoeq : outA = outB := Option.some_inj.1 heq
  rw [hoeq] at h1
  omega

/-! ### Lemmas about reformat, the line stream and the scanner -/

theorem runLines_cons (buf : KeyBuf) (l : Slice) (ls : List Slice) :
    runLines buf (l :: ls) =
      match reformatBuf buf l with
      | (.panicked, _) => none
      | (.dropped, buf') => runLines buf' ls
      | (.printed s, buf') => (runLines buf' ls).map (s :: ·) := rfl

theorem reformat_drops_bad_line {bad : Slice} (hnz : 1 ≤ bad.data.length + bad.spare.length)
    (hbad : (bad.data ++ bad.spare).take 1 ≠ [lbrace] ∨ decodeJsonObject bad.data = none) :
    ∀ b : KeyBuf, reformatBuf b bad = (.dropped, b) := by
  intro b
  unfold reformatBuf
  rw [if_neg (by omega)]
  rcases hbad with h | h
  · rw [if_pos h]
  · by_cases hg : (bad.data ++ bad.spare).take 1 ≠ [lbrace]
    · rw [if_pos hg]
    · rw [if_neg hg, h]

theorem breakLine_some : ∀ (l t r : List Char), breakLine l = (t, some r) →
    l = t ++ '\n' :: r := by
  intro l
  induction l with
  | nil => intro t r h; exact absurd h (by simp [breakLine])
  | cons c cs ih =>
    intro t r h
    by_cases hc : c = '\n'
    · subst hc
      simp [breakLine] at h
      obtain ⟨h1, h2⟩ := h
      subst h1
      subst h2
      rfl
    · simp only [breakLine, if_neg hc] at h
      injection h with h1 h2
      have hbl : breakLine cs = ((breakLine cs).1, some r) := by rw [← h2]
      have hcs := ih (breakLine cs).1 r hbl
      rw [← h1, List.cons_append, ← hcs]

theorem breakLine_none : ∀ (l t : List Char), breakLine l = (t, none) → l = t := by
  intro l
  induction l with
  | nil =>
    intro t h
    exact congrArg Prod.fst h
  | cons c cs ih =>
    intro t h
    by_cases hc : c = '\n'
    · subst hc
      simp [breakLine] at h
    · simp only [breakLine, if_neg hc] at h
      injection h with h1 h2
      have hbl : breakLine cs = ((breakLine cs).1, none) := by rw [← h2]
      have hcs := ih (breakLine cs).1 hbl
      rw [← h1, ← hcs]

theorem dropCR_eq_nil {l : List Char} (h : dropCR l = []) : l = [] ∨ l = ['\r'] := by
  unfold dropCR at h
  split at h
  · next hlast =>
    cases l with
    | nil => exact Or.inl rfl
    | cons a as =>
      cases as with
      | nil =>
        right
        have ha : a = '\r' := by simpa using hlast
        rw [ha]
      | cons b bs => exact absurd h (by simp)
  · exact Or.inl h

theorem scanLinesF_token_shape : ∀ (fuel : Nat) (input : List Char) (tok : Slice),
    tok ∈ scanLinesF fuel input →
    tok.data ≠ [] ∨ tok.spare.head? = some '\n' ∨ tok.spare.head? = some '\r' := by
  intro fuel
  induction fuel with
  | zero => intro input tok h; simp [scanLinesF] at h
  | succ fuel ih =>
    intro input tok h
    cases input with
    | nil => simp [scanLinesF] at h
    | cons c cs =>
      rw [scanLinesF, if_neg (by simp)] at h
      rcases hbl : breakLine (c :: cs) with ⟨line, orest⟩
      rw [hbl] at h
      cases orest with
      | some rest =>
        simp only [List.mem_cons] at h
        rcases h with rfl | h
        · by_cases hd : dropCR line = []
          · have hline := breakLine_some (c :: cs) line rest hbl
            rcases dropCR_eq_nil hd with hnil | hcr
            · right; left
              subst hnil
              simp only [hd, List.length_nil, List.drop_zero]
              rw [List.nil_append] at hline
              rw [hline]
              rfl
            · right; right
              subst hcr
              simp only [hd, List.length_nil, List.drop_zero]
              rw [hline]
              rfl
          · left
            exact hd
        · exact ih rest tok h
      | none =>
        simp only [List.mem_singleton] at h
        subst h
        by_cases hd : dropCR line = []
        · have hline := breakLine_none (c :: cs) line hbl
          rcases dropCR_eq_nil hd with hnil | hcr
          · rw [hnil] at hline
            exact absurd hline (by simp)
          · right; right
            subst hcr
            simp only [hd, List.length_nil, List.drop_zero]
            rw [hline]
            rfl
        · left
          exact hd

theorem reformat_drops_empty_data (buf : KeyBuf) (tok : Slice) (hdata : tok.data = [])
    (hhead : tok.spare.head? = some '\n' ∨ tok.spare.head? = some '\r') :
    (reformatBuf buf tok).fst = RunOut.dropped := by
  rcases hs : tok.spare with _ | ⟨x, xs⟩
  · rw [hs] at hhead
    rcases hhead with h | h <;> simp at h
  · have hx : x = '\n' ∨ x = '\r' := by
      rw [hs] at hhead
      rcases hhead with h | h
      · left; simpa using h
      · right; simpa using h
    unfold reformatBuf
    have hc0 : ¬ (tok.data.length + tok.spare.length = 0) := by
      rw [hdata, hs]; simp
    rw [if_neg hc0]
    have hg : (tok.data ++ tok.spare).take 1 ≠ [lbrace] := by
      rw [hdata, hs]
      simp only [List.nil_append, List.take_succ_cons, List.take_zero]
      intro heq
      injection heq with hx' _
      rcases hx with rfl | rfl <;> exact absurd hx' (by decide)
    rw [if_pos hg]

/-! ### Claims about reformat, the stream and the scanner -/

/-- Claim C1 (code bug): a JSON line in which a recognized field holds a
non-string value makes `reformat` panic through the unchecked type
assertion `val.(string)` (src/glogv.go lines 166, 169) instead of
treating the field as absent — shown at `level: 123` and `time: 42`.  By
contrast a time field holding a non-RFC3339 string is tolerated: the
parse error is discarded and the line prints with the zero time. -/
theorem c1_nonstring_recognized_field_panics :
    (reformatBuf ⟨0, []⟩ ⟨"\x7b\x22level\x22:123\x7d".data, ['\n']⟩).fst = RunOut.panicked ∧
    (reformatBuf ⟨0, []⟩ ⟨"\x7b\x22time\x22:42\x7d".data, ['\n']⟩).fst = RunOut.panicked ∧
    (reformatBuf ⟨0, []⟩
      ⟨"\x7b\x22time\x22:\x22not-rfc3339\x22,\x22level\x22:\x22info\x22\x7d".data, ['\n']⟩).fst
        = RunOut.printed (colorGray ++ "12:00AM" ++ " " ++ colorGreen ++ "INF" ++ "\n") := by
  refine ⟨by decide, by decide, by decide⟩

/-- Claim C3 (confirmed): a line that does not begin with the JSON object
delimiter, or that fails JSON decoding, is dropped — `reformat` returns
normally producing no output — and removing it from the stream leaves the
processing of every other line, in particular every subsequent valid
record, unchanged. -/
theorem c3_bad_line_dropped_stream_continues (buf : KeyBuf) (pre post : List Slice)
    (bad : Slice) (hnz : 1 ≤ bad.data.length + bad.spare.length)
    (hbad : (bad.data ++ bad.spare).take 1 ≠ [lbrace] ∨ decodeJsonObject bad.data = none) :
    runLines buf (pre ++ bad :: post) = runLines buf (pre ++ post) := by
  induction pre generalizing buf with
  | nil =>
    simp only [List.nil_append]
    rw [runLines_cons, reformat_drops_bad_line hnz hbad buf]
  | cons p ps ih =>
    simp only [List.cons_append]
    rcases hr : reformatBuf buf p with ⟨out, buf'⟩
    rw [runLines_cons, runLines_cons, hr]
    cases out with
    | panicked => rfl
    | dropped => exact ih buf'
    | printed s => exact congrArg (Option.map (s :: ·)) (ih buf')

theorem c3_witness :
    runLines ⟨0, []⟩ [badLine, validLine] = runLines ⟨0, []⟩ [validLine] ∧
    runLines ⟨0, []⟩ [validLine]
      = some [colorGray ++ "12:00AM" ++ " " ++ colorGreen ++ "INF"
          ++ " " ++ colorReset ++ "hi" ++ "\n"] :=
  ⟨c3_bad_line_dropped_stream_continues ⟨0, []⟩ [] [validLine] badLine (by decide)
      (Or.inl (by decide)),
   by decide⟩

/-- Claim C7 (corrected): when the time field is absent, or holds a
string that is not valid RFC3339 (including the empty string), the
rendered time segment is the fixed zero-time placeholder `12:00AM` in the
neutral gray color — visible text rather than the blank segment the claim
describes — and rendering it is never an error. -/
theorem c7_missing_time_renders_placeholder (m : GoMap)
    (h : getVal "time" m = none ∨
      ∃ s, getVal "time" m = some (JsonValue.str s) ∧ parseRFC3339 s = none) :
    timeSegment m = some (colorGray ++ "12:00AM") := by
  unfold timeSegment extractTime
  rcases h with h | ⟨s, hs, hp⟩
  · rw [h]
    decide
  · rw [hs]
    show some (formatTime ((parseRFC3339 s).getD zeroTime)) = _
    rw [hp]
    decide

theorem c7_witness :
    timeSegment [("time", JsonValue.str "bogus")] = some (colorGray ++ "12:00AM") ∧
    timeSegment [("message", JsonValue.str "x")] = some (colorGray ++ "12:00AM") :=
  ⟨c7_missing_time_renders_placeholder _ (Or.inr ⟨"bogus", rfl, rfl⟩),
   c7_missing_time_renders_placeholder _ (Or.inl rfl)⟩

/-- Claim C7 counterexample: for a record with no time field the rendered
time segment equals the gray `12:00AM` placeholder, which is neither the
empty string nor a bare color code — the segment is not blank. -/
theorem c7_zero_time_not_blank :
    timeSegment [("message", JsonValue.str "hi")] = some (colorGray ++ "12:00AM") ∧
    colorGray ++ "12:00AM" ≠ "" ∧ colorGray ++ "12:00AM" ≠ colorGray := by
  refine ⟨by decide, by decide, by decide⟩

/-- Claim C10 (confirmed): every token the scanner hands to `reformat`
can be sliced `b[:1]` within capacity — the sum of visible length and
spare capacity is at least one, because an empty line's token keeps its
line delimiter in the spare region — so an empty input line is dropped by
the brace guard rather than panicking with an out-of-range slice. -/
theorem c10_empty_line_dropped_not_panic (input : List Char) (tok : Slice) (buf : KeyBuf)
    (h : tok ∈ scanLines input) :
    1 ≤ tok.data.length + tok.spare.length ∧
    (tok.data = [] → (reformatBuf buf tok).fst = RunOut.dropped) := by
  have hshape := scanLinesF_token_shape (input.length + 1) input tok h
  constructor
  · rcases hshape with h1 | h2 | h2
    · have := List.length_pos.2 h1
      omega
    · have hne : tok.spare ≠ [] := by
        intro he; rw [he] at h2; simp at h2
      have := List.length_pos.2 hne
      omega
    · have hne : tok.spare ≠ [] := by
        intro he; rw [he] at h2; simp at h2
      have := List.length_pos.2 hne
      omega
  · intro hdata
    rcases hshape with h1 | h2 | h2
    · exact absurd hdata h1
    · exact reformat_drops_empty_data buf tok hdata (Or.inl h2)
    · exact reformat_drops_empty_data buf tok hdata (Or.inr h2)

theorem c10_witness :
    ((⟨[], ['\n']⟩ : Slice) ∈ scanLines ['\n']) ∧
    1 ≤ ((⟨[], ['\n']⟩ : Slice).data.length + (⟨[], ['\n']⟩ : Slice).spare.length) ∧
    (reformatBuf ⟨0, []⟩ ⟨[], ['\n']⟩).fst = RunOut.dropped :=
  ⟨by decide,
   (c10_empty_line_dropped_not_panic ['\n'] ⟨[], ['\n']⟩ ⟨0, []⟩ (by decide)).1,
   (c10_empty_line_dropped_not_panic ['\n'] ⟨[], ['\n']⟩ ⟨0, []⟩ (by decide)).2 rfl⟩

/-- Claim C6 (code bug): a record with 102 remaining attribute keys renders 101
key=value pairs (counted here by the `=` separators of the output, one
per rendered pair) — the collect loop's post-increment check
`i > maxKeys` admits one key more than the documented cap of
`maxKeys = 100` (and than the declared capacity of the key slice). -/
theorem c6_renders_cap_plus_one_keys :
    (((formatMapBuf ⟨0, []⟩ bigMapA).fst.getD "").data.count '=') = maxKeys + 1 := by
  rw [formatMapBuf_fst]
  have hlenA : bigMapA.length = 102 := by simp [bigMapA, bigTail]
  have hks_mem : ∀ k ∈ sortStrings (collectKeys bigMapA), k ∈ bigMapA.map Prod.fst := by
    intro k hk
    have h1 : k ∈ collectKeys bigMapA := (sortStrings_perm _).mem_iff.1 hk
    exact (List.take_sublist _ _).subset h1
  have hvals : ∀ k ∈ bigMapA.map Prod.fst,
      ∃ s, getVal k bigMapA = some (JsonValue.str s) ∧ s.data.count '=' = 0 := by
    intro k hk
    rw [keysA_eq] at hk
    rcases List.mem_cons.1 hk with h0 | h2
    · subst h0
      exact ⟨"!", getVal_bigA_key0, by decide⟩
    · exact ⟨"", getVal_bigA_tailkey k h2, by decide⟩
  have hex : ∀ k ∈ sortStrings (collectKeys bigMapA),
      ∃ s, (getVal k bigMapA).bind goAssertString = some s := by
    intro k hk
    obtain ⟨s, hv, _⟩ := hvals k (hks_mem k hk)
    exact ⟨s, by rw [hv]; rfl⟩
  obtain ⟨out, hout, hcnt⟩ :=
    renderKeysLoop_count bigMapA '=' (sortStrings (collectKeys bigMapA)) "" hex
  have hfm : formatMapStr bigMapA = some out := by
    unfold formatMapStr
    rw [if_neg (by omega), if_neg (by omega), hout]
  rw [hfm, Option.getD_some, hcnt]
  have hpiece : ∀ k ∈ sortStrings (collectKeys bigMapA),
      (" " ++ colorGray ++ k ++ "=" ++ colorReset
        ++ (((getVal k bigMapA).bind goAssertString).getD "")).data.count '=' = 1 := by
    intro k hk
    obtain ⟨s, hv, hs0⟩ := hvals k (hks_mem k hk)
    obtain ⟨hk0, _⟩ := bigKeys_clean k (hks_mem k hk)
    rw [hv]
    simp only [Option.some_bind, goAssertString, Option.getD_some, String.data_append,
      List.count_append]
    rw [hk0, hs0]
    decide
  rw [sum_map_congr_const _ _ 1 hpiece]
  have hlen_ks : (sortStrings (collectKeys bigMapA)).length = 101 := by
    rw [sortStrings_length]
    unfold collectKeys
    rw [List.length_take, List.length_map, hlenA]
    decide
  rw [hlen_ks]
  decide

end Glogv
